import Mathlib

/-!
Verification of the data-acquisition-and-derivation pipeline of the
streamlit finance chart application (src/app.py): components-table
indexing, quote loading and column normalization, row dropping,
windowed views and simple-moving-average overlays.

Dates are modelled as natural numbers, prices and volumes as rationals.
-/

namespace FinanceChart

/-! ## Data model: quote series -/

/-- A raw daily bar as fetched from the provider; any field may be null
(as a pandas NaN), modelled by `Option`. -/
structure RawBar where
  date : Nat
  op : Option ℚ
  hi : Option ℚ
  lo : Option ℚ
  cl : Option ℚ
  adj : Option ℚ
  vol : Option ℚ
deriving DecidableEq, Repr

/-- A complete daily bar, after rows with missing fields are dropped. -/
structure Bar where
  date : Nat
  op : ℚ
  hi : ℚ
  lo : ℚ
  cl : ℚ
  adj : ℚ
  vol : ℚ
deriving DecidableEq, Repr

/-- A raw bar converts to a complete bar exactly when every field is
present; embeds the per-row behaviour of pandas `dropna()`. -/
def RawBar.toBar? (r : RawBar) : Option Bar :=
  match r.op, r.hi, r.lo, r.cl, r.adj, r.vol with
  | some o, some h, some l, some c, some a, some v =>
      some ⟨r.date, o, h, l, c, a, v⟩
  | _, _, _, _, _, _ => none

/-- Embeds `data = load_quotes(asset).dropna()` (src/app.py line 70):
drops every row with any null field. -/
def dropna (raw : List RawBar) : List Bar :=
  raw.filterMap RawBar.toBar?

/-! ## Derived series engine: windowing and SMA overlays -/

/-- The quote-count slider (src/app.py lines 73-74) has lower bound 30
and upper bound `min(2000, len(data))`; the value the core receives is
clamped into that range. -/
def clampWindow (w len : Nat) : Nat := max 30 (min w (min 2000 len))

/-- The SMA period sliders (src/app.py lines 79, 84) clamp the period
into [5, 500]. -/
def clampPeriod (p : Nat) : Nat := max 5 (min p 500)

/-- Python negative slicing `l[-n:]` for `n > 0`: the last `n` elements
(the whole list when `n >= len`). -/
def lastN {α : Type} (n : Nat) (l : List α) : List α :=
  l.drop (l.length - n)

/-- The adjusted-close column `data['Adj Close']` of a series. -/
def adjPrices (series : List Bar) : List ℚ :=
  series.map Bar.adj

/-- Embeds pandas `xs.rolling(p).mean()`: at index `i` the mean of the
`p` values ending at `i`, or null (`none`) when fewer than `p` values
precede (inclusive). -/
def rollingMean (p : Nat) (xs : List ℚ) : List (Option ℚ) :=
  (List.range xs.length).map (fun i =>
    if p ≤ i + 1 then some (((xs.take (i + 1)).drop (i + 1 - p)).sum / (p : ℚ))
    else none)

/-- The full-series SMA column, labelled by date: embeds
`data['Adj Close'].rolling(period).mean()` together with its date index. -/
def smaColumn (p : Nat) (series : List Bar) : List (Nat × Option ℚ) :=
  (series.map Bar.date).zip (rollingMean p (adjPrices series))

/-- A row of the displayed table `data_view`: date index, the base
adjusted-close column, and one value (possibly null) per overlay. -/
structure ViewRow where
  date : Nat
  adj : ℚ
  overlays : List (Option ℚ)
deriving DecidableEq, Repr

/-- Embeds the construction of `data_view` (src/app.py lines 76-87):
`data_view = data[-section:][['Adj Close']].copy()` with `section` the
clamped window size, then for each overlay period `p` a column
`data['Adj Close'].rolling(p).mean().reindex(data_view.index)` — the
rolling mean over the FULL series, restricted to the windowed dates by
label lookup. -/
def windowedView (series : List Bar) (w : Nat) (periods : List Nat) : List ViewRow :=
  (lastN (clampWindow w series.length) series).map (fun b =>
    ⟨b.date, b.adj,
      periods.map (fun p =>
        (List.lookup b.date (smaColumn (clampPeriod p) series)).join)⟩)

/-! ## Stateful view of overlay addition -/

/-- The mutable state of `main` while the view is built: the full
series `data` and the displayed table `data_view` (a copy). -/
structure AppState where
  data : List Bar
  view : List ViewRow
deriving DecidableEq, Repr

/-- Embeds one overlay checkbox firing (src/app.py lines 79-82):
`data_view[f"SMA {p}"] = data['Adj Close'].rolling(p).mean().reindex(data_view.index)`
reads the full series and writes a column into the view only. -/
def addSMAColumn (p : Nat) (s : AppState) : AppState :=
  ⟨s.data,
    s.view.map (fun r =>
      ⟨r.date, r.adj,
        r.overlays ++ [(List.lookup r.date (smaColumn (clampPeriod p) s.data)).join]⟩)⟩

/-- The view-building portion of `main`: build the windowed base view,
then add each requested overlay column in turn. -/
def runMain (series : List Bar) (w : Nat) (periods : List Nat) : AppState :=
  periods.foldl (fun s p => addSMAColumn p s) ⟨series, windowedView series w []⟩

/-! ## Components repository -/

/-- A parsed HTML table: column names and string-valued rows, as
produced by `pd.read_html(...)[0]`. -/
structure RawTable where
  cols : List String
  rows : List (List String)
deriving DecidableEq, Repr

/-- Embeds `components.set_index('Symbol', inplace=True)`
(src/app.py line 20): fails (pandas `KeyError`) exactly when no column
is named Symbol; otherwise each row is keyed by its Symbol entry, the
Symbol column being removed from the remaining fields. Duplicate keys
are not checked (`verify_integrity` is not set). -/
def setIndexSymbol (t : RawTable) : Except String (List (String × List String)) :=
  match t.cols.findIdx? (fun c => c == "Symbol") with
  | none => Except.error "KeyError"
  | some k => Except.ok (t.rows.map (fun r => (r.getD k "", r.eraseIdx k)))

/-! ## Quote repository -/

/-- A column labelling of a provider frame: flat names, or a two-level
labelling (field name, ticker) as yfinance returns for grouped data. -/
inductive Cols where
  | flat (names : List String)
  | multi (names : List (String × String))
deriving DecidableEq, Repr

/-- The level-0 labels: `columns.get_level_values(0)` on a MultiIndex,
the labels themselves otherwise. -/
def flattenCols : Cols → List String
  | Cols.flat ns => ns
  | Cols.multi ns => ns.map Prod.fst

/-- A provider response frame: a column labelling and date-indexed rows
of possibly-null values. -/
structure ProviderFrame where
  cols : Cols
  rows : List (Nat × List (Option ℚ))
deriving DecidableEq, Repr

/-- The error taxonomy the specification names for quote fetching. -/
inductive QuoteError where
  | notFound
  | transient
deriving DecidableEq, Repr

/-- Embeds `load_quotes` (src/app.py lines 25-31): returns the provider
frame with a MultiIndex collapsed to its level-0 labels. There is no
error handling in the source: every provider response, including the
empty frame yfinance returns for an unknown symbol, is returned as a
result. -/
def load_quotes (resp : ProviderFrame) : Except QuoteError ProviderFrame :=
  Except.ok ⟨Cols.flat (flattenCols resp.cols), resp.rows⟩

/-- The fixed flat schema of a quote frame, in yfinance column order
with `auto_adjust=False`. -/
def stdFields : List String :=
  ["Open", "High", "Low", "Close", "Adj Close", "Volume"]

/-! ## Helper lemmas -/

theorem lastN_length {α : Type} (n : Nat) (l : List α) :
    (lastN n l).length = min n l.length := by
  simp [lastN]
  omega

theorem adjPrices_length (series : List Bar) :
    (adjPrices series).length = series.length := by
  simp [adjPrices]

theorem rollingMean_length (p : Nat) (xs : List ℚ) :
    (rollingMean p xs).length = xs.length := by
  simp [rollingMean]

theorem rollingMean_getElem (p : Nat) (xs : List ℚ) (j : Nat)
    (hj : j < (rollingMean p xs).length) :
    (rollingMean p xs).get ⟨j, hj⟩ =
      if p ≤ j + 1 then some (((xs.take (j + 1)).drop (j + 1 - p)).sum / (p : ℚ))
      else none := by
  simp [rollingMean]

theorem lookup_zip_of_nodup {β : Type} (keys : List Nat) (vals : List β)
    (hnd : keys.Nodup) (j : Nat) (hk : j < keys.length) (hv : j < vals.length) :
    List.lookup (keys.get ⟨j, hk⟩) (keys.zip vals) = some (vals.get ⟨j, hv⟩) := by
  induction keys generalizing vals j with
  | nil => simp at hk
  | cons k ks ih =>
    cases vals with
    | nil => simp at hv
    | cons v vs =>
      cases j with
      | zero => simp [List.lookup]
      | succ j =>
        have hk' : j < ks.length := by simpa using hk
        have hv' : j < vs.length := by simpa using hv
        have hne : (ks.get ⟨j, hk'⟩ == k) = false :=
          beq_eq_false_iff_ne.mpr
            (fun h => (List.nodup_cons.mp hnd).1 (h ▸ List.get_mem ks j hk'))
        rw [List.get_eq_getElem] at hne
        simpa [List.lookup, hne] using ih vs ((List.nodup_cons.mp hnd).2) j hk' hv'

theorem windowedView_length (series : List Bar) (w : Nat) (periods : List Nat) :
    (windowedView series w periods).length
      = min (clampWindow w series.length) series.length := by
  simp [windowedView, lastN]
  omega

theorem windowedView_getElem (series : List Bar) (w : Nat) (periods : List Nat)
    (i : Nat) (hi : i < (windowedView series w periods).length) :
    ∃ hj : series.length - clampWindow w series.length + i < series.length,
      (windowedView series w periods).get ⟨i, hi⟩ =
        ⟨(series.get ⟨series.length - clampWindow w series.length + i, hj⟩).date,
         (series.get ⟨series.length - clampWindow w series.length + i, hj⟩).adj,
         periods.map (fun p =>
           (List.lookup
             (series.get ⟨series.length - clampWindow w series.length + i, hj⟩).date
             (smaColumn (clampPeriod p) series)).join)⟩ := by
  have hlen := windowedView_length series w periods
  have hj : series.length - clampWindow w series.length + i < series.length := by
    rw [hlen] at hi
    omega
  refine ⟨hj, ?_⟩
  simp only [windowedView, lastN, List.get_eq_getElem, List.getElem_map,
    List.getElem_drop]

theorem clampPeriod_eq (p : Nat) (hp5 : 5 ≤ p) (hp500 : p ≤ 500) :
    clampPeriod p = p := by
  simp [clampPeriod]
  omega

theorem dates_nodup (series : List Bar)
    (hdates : (series.map Bar.date).Pairwise (fun a b => a < b)) :
    (series.map Bar.date).Nodup :=
  hdates.imp (fun h => Nat.ne_of_lt h)

theorem lookup_smaColumn (p : Nat) (series : List Bar)
    (hnd : (series.map Bar.date).Nodup) (j : Nat) (hj : j < series.length) :
    List.lookup (series.get ⟨j, hj⟩).date (smaColumn p series)
      = some ((rollingMean p (adjPrices series)).get
          ⟨j, by rw [rollingMean_length, adjPrices_length]; exact hj⟩) := by
  have hk : j < (series.map Bar.date).length := by simpa using hj
  have hv : j < (rollingMean p (adjPrices series)).length := by
    rw [rollingMean_length, adjPrices_length]
    exact hj
  have := lookup_zip_of_nodup (series.map Bar.date)
    (rollingMean p (adjPrices series)) hnd j hk hv
  simpa [smaColumn, List.get_eq_getElem] using this

theorem windowedView_overlay_get (series : List Bar) (w p : Nat)
    (hnd : (series.map Bar.date).Nodup) (hp5 : 5 ≤ p) (hp500 : p ≤ 500)
    (i : Nat) (hi : i < (windowedView series w [p]).length)
    (hj2 : series.length - clampWindow w series.length + i
      < (rollingMean p (adjPrices series)).length) :
    ((windowedView series w [p]).get ⟨i, hi⟩).overlays
      = [(rollingMean p (adjPrices series)).get
          ⟨series.length - clampWindow w series.length + i, hj2⟩] := by
  obtain ⟨hj, hrow⟩ := windowedView_getElem series w [p] i hi
  rw [hrow]
  simp only [List.map_cons, List.map_nil]
  rw [clampPeriod_eq p hp5 hp500, lookup_smaColumn p series hnd _ hj]
  simp

/-! ## Claim theorems -/

/-- C1: for every quote series (with strictly increasing dates) and every
overlay period p in [5, 500], the overlay column of the windowed view is the
simple moving average of adjusted-close computed over the FULL series and then
restricted to the windowed dates; consequently a windowed position whose date
has at least p full-series values up to and including it has a defined
average, even when those values lie before the window start. -/
theorem overlay_is_full_series_sma (series : List Bar) (w p : Nat)
    (hdates : (series.map Bar.date).Pairwise (fun a b => a < b))
    (hp5 : 5 ≤ p) (hp500 : p ≤ 500) :
    (windowedView series w [p]).map ViewRow.overlays
      = (lastN (clampWindow w series.length)
          (rollingMean p (adjPrices series))).map (fun o => [o])
    ∧ ∀ (i : Nat) (hi : i < (windowedView series w [p]).length),
        p ≤ series.length - clampWindow w series.length + i + 1 →
        ∃ q, ((windowedView series w [p]).get ⟨i, hi⟩).overlays = [some q] := by
  have hnd := dates_nodup series hdates
  have hwl := windowedView_length series w [p]
  constructor
  · apply List.ext_getElem
    · rw [List.length_map, List.length_map, hwl, lastN_length,
        rollingMean_length, adjPrices_length]
    · intro i h1 h2
      have hi : i < (windowedView series w [p]).length := by
        simpa using h1
      have hj2 : series.length - clampWindow w series.length + i
          < (rollingMean p (adjPrices series)).length := by
        rw [rollingMean_length, adjPrices_length]
        rw [hwl] at hi
        omega
      rw [List.getElem_map, List.getElem_map]
      have hov := windowedView_overlay_get series w p hnd hp5 hp500 i hi hj2
      rw [List.get_eq_getElem] at hov
      rw [hov]
      simp only [lastN, List.getElem_drop, List.get_eq_getElem,
        rollingMean_length, adjPrices_length]
  · intro i hi hhist
    have hj2 : series.length - clampWindow w series.length + i
        < (rollingMean p (adjPrices series)).length := by
      rw [rollingMean_length, adjPrices_length]
      rw [hwl] at hi
      omega
    rw [windowedView_overlay_get series w p hnd hp5 hp500 i hi hj2]
    rw [rollingMean_getElem]
    rw [if_pos hhist]
    exact ⟨_, rfl⟩

/-- C6: for every overlay period p in [5, 500], a windowed position whose
date has fewer than p full-series values up to and including it carries no
overlay value at all: the overlay entry is null, not zero and not an error. -/
theorem overlay_undefined_short_history (series : List Bar) (w p : Nat)
    (hdates : (series.map Bar.date).Pairwise (fun a b => a < b))
    (hp5 : 5 ≤ p) (hp500 : p ≤ 500)
    (i : Nat) (hi : i < (windowedView series w [p]).length)
    (hshort : series.length - clampWindow w series.length + i + 1 < p) :
    ((windowedView series w [p]).get ⟨i, hi⟩).overlays = [none] := by
  have hnd := dates_nodup series hdates
  have hwl := windowedView_length series w [p]
  have hj2 : series.length - clampWindow w series.length + i
      < (rollingMean p (adjPrices series)).length := by
    rw [rollingMean_length, adjPrices_length]
    rw [hwl] at hi
    omega
  rw [windowedView_overlay_get series w p hnd hp5 hp500 i hi hj2]
  rw [rollingMean_getElem]
  rw [if_neg (by omega)]

/-- C5: for every quote series (strictly increasing dates) holding at least p
values and every overlay period p in [5, 500], the overlay value at the last
windowed date equals the arithmetic mean of the p most recent adjusted-close
values of the full series, even when p exceeds the window size; and that last
windowed date is the last date of the full series. -/
theorem overlay_last_windowed_date_mean (series : List Bar) (w p : Nat)
    (hdates : (series.map Bar.date).Pairwise (fun a b => a < b))
    (hp5 : 5 ≤ p) (hp500 : p ≤ 500) (hplen : p ≤ series.length) :
    ∃ r, (windowedView series w [p]).getLast? = some r
      ∧ r.overlays = [some ((lastN p (adjPrices series)).sum / (p : ℚ))]
      ∧ ∃ hs : series ≠ [], r.date = (series.getLast hs).date := by
  have hnd := dates_nodup series hdates
  have hwl := windowedView_length series w [p]
  have hlen1 : 1 ≤ series.length := by omega
  have hvl : 1 ≤ (windowedView series w [p]).length := by
    rw [hwl]
    simp only [clampWindow]
    omega
  have hi : (windowedView series w [p]).length - 1
      < (windowedView series w [p]).length := by omega
  have hidx : series.length - clampWindow w series.length
      + ((windowedView series w [p]).length - 1) = series.length - 1 := by
    rw [hwl]
    simp only [clampWindow]
    omega
  have hj2 : series.length - clampWindow w series.length
      + ((windowedView series w [p]).length - 1)
      < (rollingMean p (adjPrices series)).length := by
    rw [rollingMean_length, adjPrices_length, hidx]
    omega
  refine ⟨(windowedView series w [p]).get
    ⟨(windowedView series w [p]).length - 1, hi⟩, ?_, ?_, ?_⟩
  · rw [List.getLast?_eq_getElem?, List.getElem?_eq_getElem hi]
    rfl
  · rw [windowedView_overlay_get series w p hnd hp5 hp500 _ hi hj2]
    have hget := rollingMean_getElem p (adjPrices series)
      (series.length - clampWindow w series.length
        + ((windowedView series w [p]).length - 1)) hj2
    rw [hget, if_pos (by omega)]
    have htake : (adjPrices series).take
        (series.length - clampWindow w series.length
          + ((windowedView series w [p]).length - 1) + 1) = adjPrices series := by
      rw [hidx]
      have : series.length - 1 + 1 = series.length := by omega
      rw [this, ← adjPrices_length, List.take_length]
    rw [htake, hidx]
    have hdrop : series.length - 1 + 1 - p = (adjPrices series).length - p := by
      rw [adjPrices_length]
      omega
    rw [hdrop]
    rfl
  · obtain ⟨hj, hrow⟩ := windowedView_getElem series w [p]
      ((windowedView series w [p]).length - 1) hi
    refine ⟨by intro hnil; rw [hnil] at hlen1; simp at hlen1, ?_⟩
    rw [hrow]
    rw [List.getLast_eq_getElem]
    simp only [List.get_eq_getElem]
    simp only [hidx]

/-- C2: for a series of at least 30 bars, the windowed view with no overlays
has exactly min(w, len) rows for a requested size w inside
[30, min(2000, len)]; a request below 30 yields 30 rows, and a request above
min(2000, len) yields that bound. -/
theorem windowedView_row_count (series : List Bar) (w : Nat)
    (hlen : 30 ≤ series.length) :
    (30 ≤ w → w ≤ min 2000 series.length →
      (windowedView series w []).length = min w series.length)
    ∧ (w < 30 → (windowedView series w []).length = 30)
    ∧ (min 2000 series.length < w →
      (windowedView series w []).length = min 2000 series.length) := by
  rw [windowedView_length]
  simp only [clampWindow]
  omega

/-- C8: for every series and requested window size, the windowed view is the
contiguous date-order suffix of the series holding its last clamped-window
rows, projected to the adjusted-close column (overlay-free). -/
theorem windowedView_suffix_projection (series : List Bar) (w : Nat) :
    windowedView series w []
      = (series.drop (series.length - clampWindow w series.length)).map
          (fun b => ViewRow.mk b.date b.adj [])
    ∧ List.IsSuffix
        ((windowedView series w []).map (fun r => (r.date, r.adj)))
        (series.map (fun b => (b.date, b.adj))) := by
  constructor
  · rfl
  · have h1 : (windowedView series w []).map (fun r => (r.date, r.adj))
        = (series.drop (series.length - clampWindow w series.length)).map
            (fun b => (b.date, b.adj)) := by
      simp [windowedView, lastN, List.map_map]
      rfl
    rw [h1]
    exact List.IsSuffix.map _ (List.drop_suffix _ _)

/-- C7: every bar surviving `dropna` comes from a raw row all of whose
fields are present; the downstream series therefore contains no row with a
null field, every row with any missing field having been dropped. -/
theorem dropna_no_null_fields (raw : List RawBar) (b : Bar)
    (hb : b ∈ dropna raw) :
    ∃ r ∈ raw, r.date = b.date ∧ r.op = some b.op ∧ r.hi = some b.hi
      ∧ r.lo = some b.lo ∧ r.cl = some b.cl ∧ r.adj = some b.adj
      ∧ r.vol = some b.vol := by
  rcases List.mem_filterMap.mp hb with ⟨r, hr, hconv⟩
  refine ⟨r, hr, ?_⟩
  rcases r with ⟨d, o, h, l, c, a, v⟩
  cases o <;> cases h <;> cases l <;> cases c <;> cases a <;> cases v <;>
    simp_all [RawBar.toBar?]
  subst hconv
  simp

theorem addSMAColumn_windowedView (series : List Bar) (w p : Nat)
    (qs : List Nat) :
    addSMAColumn p ⟨series, windowedView series w qs⟩
      = ⟨series, windowedView series w (qs ++ [p])⟩ := by
  simp [addSMAColumn, windowedView, List.map_map]

theorem runMain_foldl (ps : List Nat) :
    ∀ (series : List Bar) (w : Nat) (qs : List Nat),
      ps.foldl (fun s p => addSMAColumn p s) ⟨series, windowedView series w qs⟩
        = ⟨series, windowedView series w (qs ++ ps)⟩ := by
  induction ps with
  | nil =>
      intro series w qs
      simp
  | cons p ps ih =>
      intro series w qs
      rw [List.foldl_cons, addSMAColumn_windowedView series w p qs,
        ih series w (qs ++ [p]), List.append_assoc]
      rfl

/-- C10: building the windowed view and adding overlay columns never changes
the full series (the overlay write goes to the copied view only), and adding
overlays changes neither the windowed view's dates nor its adjusted-close
values; moreover the stateful overlay-by-overlay construction of main yields
exactly the windowed view with those overlay columns. -/
theorem overlay_pure_frame (series : List Bar) (w : Nat) (periods : List Nat) :
    (runMain series w periods).data = series
    ∧ (runMain series w periods).view = windowedView series w periods
    ∧ (windowedView series w periods).map (fun r => (r.date, r.adj))
        = (windowedView series w []).map (fun r => (r.date, r.adj)) := by
  have h := runMain_foldl periods series w []
  refine ⟨?_, ?_, ?_⟩
  · show (periods.foldl (fun s p => addSMAColumn p s)
      ⟨series, windowedView series w []⟩).data = series
    rw [h]
  · show (periods.foldl (fun s p => addSMAColumn p s)
      ⟨series, windowedView series w []⟩).view = windowedView series w periods
    rw [h]
    simp
  · simp only [windowedView, lastN, List.map_map]
    rfl

/-- A parsed components table whose Symbol column contains a duplicate. -/
def dupTable : RawTable :=
  ⟨["Symbol", "Security"], [["A", "Alpha"], ["A", "Beta"]]⟩

/-- C4 counterexample: a table whose symbol column contains duplicate
symbols is indexed successfully — `set_index` without `verify_integrity`
does not fail on duplicates, contradicting the claim that duplicated
symbols produce a ParseError. -/
theorem setIndexSymbol_duplicate_symbols_ok :
    setIndexSymbol dupTable
      = Except.ok [("A", ["Alpha"]), ("A", ["Beta"])] := by rfl

/-- C4 amended: indexing the parsed table by the symbol column fails
exactly when the symbol column is absent; duplicate symbols are not
rejected. -/
theorem setIndexSymbol_ok_iff_symbol_column (t : RawTable) :
    (setIndexSymbol t).isOk = true ↔ "Symbol" ∈ t.cols := by
  unfold setIndexSymbol
  cases hfind : t.cols.findIdx? (fun c => c == "Symbol") with
  | none =>
      rw [List.findIdx?_eq_none_iff] at hfind
      simp only [Except.isOk]
      constructor
      · intro h
        simp [Except.toBool] at h
      · intro hm
        have := hfind _ hm
        simp at this
  | some k =>
      simp only [Except.isOk]
      constructor
      · intro _
        by_contra hm
        have hnone : t.cols.findIdx? (fun c => c == "Symbol") = none :=
          List.findIdx?_eq_none_iff.mpr
            (fun x hx => beq_eq_false_iff_ne.mpr (fun he => hm (he ▸ hx)))
        rw [hfind] at hnone
        simp at hnone
      · intro _
        rfl

/-- The empty, uselessly-labelled frame yfinance hands back when the
requested symbol is unknown to the provider: no rows, no data. -/
def unknownSymbolResponse : ProviderFrame :=
  ⟨Cols.multi [("Open", "ZZZZ-INVALID"), ("High", "ZZZZ-INVALID"),
    ("Low", "ZZZZ-INVALID"), ("Close", "ZZZZ-INVALID"),
    ("Adj Close", "ZZZZ-INVALID"), ("Volume", "ZZZZ-INVALID")], []⟩

/-- C3 counterexample: on the frame the provider returns for an unknown
symbol, load_quotes returns an ordinary result (the empty series) rather
than failing: no NotFoundError is surfaced. -/
theorem load_quotes_unknown_symbol_returns_ok :
    (load_quotes unknownSymbolResponse).isOk = true
    ∧ load_quotes unknownSymbolResponse
        = Except.ok ⟨Cols.flat stdFields, []⟩ := by
  constructor <;> rfl

/-- C3 amended: load_quotes contains no error handling and never fails on
any provider response; an unknown symbol yields the provider's empty frame
passed through as a result, with no distinct NotFoundError. -/
theorem load_quotes_never_fails (resp : ProviderFrame) :
    (load_quotes resp).isOk = true := rfl

/-- C9: load_quotes collapses any multi-level column labelling down to its
level-0 field names, so whenever the provider frame's level-0 labels are the
standard fields, the returned series has the fixed flat schema
(open, high, low, close, adjusted-close, volume) with the same date-indexed
rows. -/
theorem load_quotes_flat_schema (resp : ProviderFrame)
    (h : flattenCols resp.cols = stdFields) :
    load_quotes resp = Except.ok ⟨Cols.flat stdFields, resp.rows⟩ := by
  unfold load_quotes
  rw [h]

/-- A grouped provider frame with ticker-level column labels and one row. -/
def sampleResponse : ProviderFrame :=
  ⟨Cols.multi [("Open", "AAPL"), ("High", "AAPL"), ("Low", "AAPL"),
    ("Close", "AAPL"), ("Adj Close", "AAPL"), ("Volume", "AAPL")],
   [(0, [some 1, some 2, some 3, some 4, some 5, some 6])]⟩

/-- Witness for C9 at a concrete grouped frame. -/
theorem load_quotes_flat_schema_witness :
    flattenCols sampleResponse.cols = stdFields
    ∧ load_quotes sampleResponse
        = Except.ok ⟨Cols.flat stdFields, sampleResponse.rows⟩ :=
  ⟨rfl, load_quotes_flat_schema sampleResponse rfl⟩

/-! ## Concrete witnesses -/

/-- A concrete quote series of n bars with strictly increasing dates and
adjusted-close equal to the day index. -/
def mkSeries (n : Nat) : List Bar :=
  (List.range n).map (fun i => ⟨i, 0, 0, 0, 0, (i : ℚ), 0⟩)

/-- Witness for C2 at a 40-bar series with requested window 35. -/
theorem windowedView_row_count_witness :
    30 ≤ (mkSeries 40).length
    ∧ ((30 ≤ 35 → 35 ≤ min 2000 (mkSeries 40).length →
        (windowedView (mkSeries 40) 35 []).length = min 35 (mkSeries 40).length)
      ∧ (35 < 30 → (windowedView (mkSeries 40) 35 []).length = 30)
      ∧ (min 2000 (mkSeries 40).length < 35 →
        (windowedView (mkSeries 40) 35 []).length
          = min 2000 (mkSeries 40).length)) :=
  ⟨by decide, windowedView_row_count (mkSeries 40) 35 (by decide)⟩

/-- Witness for C1 at an 8-bar series with period 5 and requested window 30. -/
theorem overlay_is_full_series_sma_witness :
    ((mkSeries 8).map Bar.date).Pairwise (fun a b => a < b)
    ∧ 5 ≤ 5 ∧ 5 ≤ 500
    ∧ ((windowedView (mkSeries 8) 30 [5]).map ViewRow.overlays
        = (lastN (clampWindow 30 (mkSeries 8).length)
            (rollingMean 5 (adjPrices (mkSeries 8)))).map (fun o => [o])
      ∧ ∀ (i : Nat) (hi : i < (windowedView (mkSeries 8) 30 [5]).length),
          5 ≤ (mkSeries 8).length - clampWindow 30 (mkSeries 8).length + i + 1 →
          ∃ q, ((windowedView (mkSeries 8) 30 [5]).get ⟨i, hi⟩).overlays
            = [some q]) :=
  ⟨by decide, by decide, by decide,
    overlay_is_full_series_sma (mkSeries 8) 30 5 (by decide) (by decide)
      (by decide)⟩

/-- Witness for C5 at an 8-bar series with period 5 and requested window 30. -/
theorem overlay_last_windowed_date_mean_witness :
    ((mkSeries 8).map Bar.date).Pairwise (fun a b => a < b)
    ∧ 5 ≤ 5 ∧ 5 ≤ 500 ∧ 5 ≤ (mkSeries 8).length
    ∧ ∃ r, (windowedView (mkSeries 8) 30 [5]).getLast? = some r
        ∧ r.overlays = [some ((lastN 5 (adjPrices (mkSeries 8))).sum / (5 : ℚ))]
        ∧ ∃ hs : mkSeries 8 ≠ [], r.date = ((mkSeries 8).getLast hs).date :=
  ⟨by decide, by decide, by decide, by decide,
    overlay_last_windowed_date_mean (mkSeries 8) 30 5 (by decide) (by decide)
      (by decide) (by decide)⟩

/-- Witness for C6 at an 8-bar series with period 5: the first windowed
position has only one preceding value, so its overlay entry is null. -/
theorem overlay_undefined_short_history_witness :
    ∃ hi : 0 < (windowedView (mkSeries 8) 30 [5]).length,
      ((mkSeries 8).map Bar.date).Pairwise (fun a b => a < b)
      ∧ (mkSeries 8).length - clampWindow 30 (mkSeries 8).length + 0 + 1 < 5
      ∧ ((windowedView (mkSeries 8) 30 [5]).get ⟨0, hi⟩).overlays = [none] :=
  ⟨by decide, by decide, by decide,
    overlay_undefined_short_history (mkSeries 8) 30 5 (by decide) (by decide)
      (by decide) 0 (by decide) (by decide)⟩

/-- A raw quote list with one complete row and one row missing a field. -/
def sampleRaw : List RawBar :=
  [⟨0, some 1, some 2, some 3, some 4, some 5, some 6⟩,
   ⟨1, some 1, none, some 3, some 4, some 5, some 6⟩]

/-- The complete bar surviving dropna on sampleRaw. -/
def sampleBar : Bar := ⟨0, 1, 2, 3, 4, 5, 6⟩

/-- Witness for C7 at a concrete raw series with one incomplete row. -/
theorem dropna_no_null_fields_witness :
    sampleBar ∈ dropna sampleRaw
    ∧ ∃ r ∈ sampleRaw, r.date = sampleBar.date ∧ r.op = some sampleBar.op
        ∧ r.hi = some sampleBar.hi ∧ r.lo = some sampleBar.lo
        ∧ r.cl = some sampleBar.cl ∧ r.adj = some sampleBar.adj
        ∧ r.vol = some sampleBar.vol :=
  ⟨by decide, dropna_no_null_fields sampleRaw sampleBar (by decide)⟩

end FinanceChart
